import Mathlib

/-!
Verification of the BATQA proxy core (main.go): the per-IP sliding-window
rate limiter (`RateLimiter.Allow`, `RateLimiter.cleanup`), the
newline-delimited bidirectional relay of `handleConnection`, the statistics
counters, and the accept loop's admission control (`Proxy.Start`).

Timestamps and durations are modelled as integers; byte streams as lists of
natural numbers (byte values), with 10 the newline byte.  Go's
`map[string][]time.Time` is modelled as an association list with Go map
semantics (a missing key reads as the empty slice).
-/

/-- Rate-limiter state (`RateLimiter` in main.go): the per-IP map of stored
request timestamps, the per-window request `limit`, and the `window`
duration. -/
structure RateLimiter where
  requests : List (String × List Int)
  limit : Int
  window : Int
  deriving DecidableEq, Repr

/-- Reading `rl.requests[ip]` with Go map semantics: a missing key reads as
the empty slice. -/
def getTimes (rl : RateLimiter) (ip : String) : List Int :=
  (rl.requests.lookup ip).getD []

/-- Go map assignment `m[k] = v` on the association-list representation:
replace the entry for `k` if present, otherwise add it at the end. -/
def setKey (k : String) (v : List Int) : List (String × List Int) → List (String × List Int)
  | [] => [(k, v)]
  | (k2, v2) :: rest => if k2 = k then (k, v) :: rest else (k2, v2) :: setKey k v rest

/-- The effect of one `Allow` call on a single key's stored timestamp
sequence (`RateLimiter.Allow`, main.go lines 66-87): filter the stored
sequence to the entries strictly newer than `now - window`; if the filtered
count has reached the limit, reject and leave the stored sequence exactly as
it was; otherwise append `now` to the filtered sequence, store it back, and
accept. -/
def allowOne (limit window : Int) (ts : List Int) (now : Int) : Bool × List Int :=
  let cutoff := now - window
  let valid := ts.filter (fun t => cutoff < t)
  if limit ≤ (valid.length : Int) then (false, ts)
  else (true, valid ++ [now])

/-- `RateLimiter.Allow` (main.go lines 66-87) over the whole map, with the
call instant `now` passed explicitly (the Go code reads `time.Now()`). -/
def RateLimiter.Allow (rl : RateLimiter) (now : Int) (ip : String) : Bool × RateLimiter :=
  let cutoff := now - rl.window
  let valid := (getTimes rl ip).filter (fun t => cutoff < t)
  if rl.limit ≤ (valid.length : Int) then (false, rl)
  else (true, { rl with requests := setKey ip (valid ++ [now]) rl.requests })

/-- One pass of the background sweep over the whole map
(`RateLimiter.cleanup` ticker body, main.go lines 89-110): for each key,
filter its timestamps to the window; delete the key if nothing remains,
otherwise store the filtered sequence back. -/
def sweepList (window now : Int) : List (String × List Int) → List (String × List Int) :=
  List.filterMap (fun p =>
    let valid := p.2.filter (fun t => now - window < t)
    if valid.isEmpty then none else some (p.1, valid))

/-- One sweep cycle of `RateLimiter.cleanup` (main.go lines 89-110) at sweep
instant `now`. -/
def RateLimiter.cleanup (rl : RateLimiter) (now : Int) : RateLimiter :=
  { rl with requests := sweepList rl.window now rl.requests }

/-- A sequence of `Allow` calls on a single key's stored sequence, at the
given call instants.  Returns the final stored sequence and the list of
instants whose call returned true. -/
def runOne (limit window : Int) : List Int → List Int → List Int × List Int
  | ts, [] => (ts, [])
  | ts, t :: calls =>
    let r := allowOne limit window ts t
    let rest := runOne limit window r.2 calls
    (rest.1, if r.1 then t :: rest.2 else rest.2)

/-- A sequence of `RateLimiter.Allow` calls for one key at the given call
instants.  Returns the final limiter state and the list of instants whose
call returned true. -/
def runAllow : RateLimiter → String → List Int → RateLimiter × List Int
  | rl, _, [] => (rl, [])
  | rl, ip, t :: calls =>
    let r := rl.Allow t ip
    let rest := runAllow r.2 ip calls
    (rest.1, if r.1 then t :: rest.2 else rest.2)

/-- `bufio.Reader.ReadBytes('\n')` on a finite byte stream: returns the
bytes read up to and including the first newline, whether an error (here:
end of stream before any newline) occurred, and the unread remainder.  On
error the data read so far is still returned in the first component,
exactly as Go's `ReadBytes` does. -/
def readBytesNL : List Nat → List Nat × Bool × List Nat
  | [] => ([], true, [])
  | b :: rest =>
    if b = 10 then ([10], false, rest)
    else
      let r := readBytesNL rest
      (b :: r.1, r.2.1, r.2.2)

/-- One relay direction of `handleConnection` (main.go lines 216-244 and
247-273), fuel-indexed for structural recursion: repeatedly `ReadBytes`;
on any error break out of the loop forwarding nothing further; otherwise
forward the line and add its length to the byte count and one to the frame
count.  With `fuel ≥` the stream length the fuel is never exhausted, since
every errorless read consumes at least the newline byte.  Returns
(forwarded bytes, frames forwarded, bytes counted). -/
def relayLoopF : Nat → List Nat → List Nat × Nat × Nat
  | 0, _ => ([], 0, 0)
  | fuel + 1, s =>
    let r := readBytesNL s
    if r.2.1 then ([], 0, 0)
    else
      let rest := relayLoopF fuel r.2.2
      (r.1 ++ rest.1, rest.2.1 + 1, rest.2.2 + r.1.length)

/-- One relay direction of `handleConnection` on a full stream. -/
def relayLoop (s : List Nat) : List Nat × Nat × Nat :=
  relayLoopF s.length s

/-- Specification-level view of a stream: its complete newline-terminated
frames in order, and the leftover bytes after the last newline (the
unterminated trailing frame, empty when the stream ends in a newline). -/
def completeFramesF : Nat → List Nat → List (List Nat) × List Nat
  | 0, _ => ([], [])
  | fuel + 1, s =>
    let r := readBytesNL s
    if r.2.1 then ([], r.1)
    else
      let rest := completeFramesF fuel r.2.2
      (r.1 :: rest.1, rest.2)

/-- Complete frames and unterminated trailing bytes of a full stream. -/
def completeFrames (s : List Nat) : List (List Nat) × List Nat :=
  completeFramesF s.length s

/-- Process-wide statistics (`Stats` in main.go).  The Go counters are
`uint64`/`int64`; overflow is immaterial to the claims, so they are
modelled as `Nat`/`Int`. -/
structure Stats where
  totalConnections : Nat
  activeConnections : Int
  totalCommands : Nat
  totalBytes : Nat
  startTime : Int
  deriving DecidableEq, Repr

/-- The two counter increments `handleConnection` performs immediately on
entry (main.go lines 189-190). -/
def handlerEntry (s : Stats) : Stats :=
  { s with
      totalConnections := s.totalConnections + 1
      activeConnections := s.activeConnections + 1 }

/-- `Proxy.handleConnection` (main.go lines 185-280), sequentialized: the
entry increments; on backend-dial failure only the deferred
active-connection decrement; on success both relay directions run, the
client direction adding its frame count to the command counter and both
directions adding their byte counts to the byte counter, then the deferred
decrement. -/
def handleConnection (dialOk : Bool) (client backend : List Nat) (s : Stats) : Stats :=
  let s1 := handlerEntry s
  if dialOk then
    let rc := relayLoop client
    let rb := relayLoop backend
    { s1 with
        totalCommands := s1.totalCommands + rc.2.1
        totalBytes := s1.totalBytes + rc.2.2 + rb.2.2
        activeConnections := s1.activeConnections - 1 }
  else
    { s1 with activeConnections := s1.activeConnections - 1 }

/-- What one iteration of the accept loop does with the accept result. -/
inductive LoopAction where
  | exitLoop
  | continueAfterError
  | rejectedCapacity
  | rejectedRate
  | dispatched
  deriving DecidableEq, Repr

/-- Result of one accept-loop iteration: the action taken, the rate-limiter
state afterwards, and the statistics afterwards. -/
structure LoopResult where
  action : LoopAction
  rl : RateLimiter
  stats : Stats
  deriving DecidableEq, Repr

/-- One iteration of the accept loop of `Proxy.Start` (main.go lines
144-173): if `Accept` returned an error, exit cleanly when shutdown has
been signaled and otherwise log and continue; on a successful accept, first
the capacity check (reject and close when the active count is at or above
`maxConns`), then the rate-limit check, and otherwise dispatch the handler
(modelled as running it to completion). -/
def acceptLoopBody (shutdownSignaled acceptErr : Bool) (maxConns : Int) (rl : RateLimiter)
    (now : Int) (ip : String) (dialOk : Bool) (client backend : List Nat)
    (s : Stats) : LoopResult :=
  if acceptErr then
    if shutdownSignaled then ⟨.exitLoop, rl, s⟩ else ⟨.continueAfterError, rl, s⟩
  else if maxConns ≤ s.activeConnections then ⟨.rejectedCapacity, rl, s⟩
  else
    let r := rl.Allow now ip
    if r.1 then ⟨.dispatched, r.2, handleConnection dialOk client backend s⟩
    else ⟨.rejectedRate, r.2, s⟩

theorem readBytesNL_append (s : List Nat) :
    (readBytesNL s).1 ++ (readBytesNL s).2.2 = s := by
  induction s with
  | nil => rfl
  | cons b rest ih =>
    by_cases hb : b = 10
    · simp [readBytesNL, hb]
    · simpa [readBytesNL, hb] using ih

theorem readBytesNL_err_rest (s : List Nat) (h : (readBytesNL s).2.1 = true) :
    (readBytesNL s).2.2 = [] := by
  induction s with
  | nil => rfl
  | cons b rest ih =>
    by_cases hb : b = 10
    · simp [readBytesNL, hb] at h
    · simp only [readBytesNL, hb, if_false, ite_false] at h ⊢
      exact ih h

theorem readBytesNL_err_line (s : List Nat) (h : (readBytesNL s).2.1 = true) :
    (readBytesNL s).1 = s := by
  have := readBytesNL_append s
  rw [readBytesNL_err_rest s h] at this
  simpa using this

theorem readBytesNL_err_no_newline (s : List Nat) (h : (readBytesNL s).2.1 = true) :
    10 ∉ (readBytesNL s).1 := by
  induction s with
  | nil => simp [readBytesNL]
  | cons b rest ih =>
    by_cases hb : b = 10
    · simp [readBytesNL, hb] at h
    · simp only [readBytesNL, hb, if_false, ite_false] at h ⊢
      simp only [List.mem_cons, not_or]
      exact ⟨fun hc => hb hc.symm, ih h⟩

theorem readBytesNL_ok_ne_nil (s : List Nat) (h : (readBytesNL s).2.1 = false) :
    (readBytesNL s).1 ≠ [] := by
  induction s with
  | nil => simp [readBytesNL] at h
  | cons b rest ih =>
    by_cases hb : b = 10
    · simp [readBytesNL, hb]
    · simp [readBytesNL, hb]

theorem readBytesNL_ok_length (s : List Nat) (h : (readBytesNL s).2.1 = false) :
    (readBytesNL s).2.2.length < s.length := by
  have happ := readBytesNL_append s
  have hlen : (readBytesNL s).1.length + (readBytesNL s).2.2.length = s.length := by
    conv_rhs => rw [← happ]
    rw [List.length_append]
  have hne := readBytesNL_ok_ne_nil s h
  have : 0 < (readBytesNL s).1.length := List.length_pos.mpr hne
  omega

theorem relayF_frames_append : ∀ (fuel : Nat) (s : List Nat), s.length ≤ fuel →
    (relayLoopF fuel s).1 ++ (completeFramesF fuel s).2 = s := by
  intro fuel
  induction fuel with
  | zero =>
    intro s hs
    have : s = [] := List.length_eq_zero.mp (Nat.le_zero.mp hs)
    subst this
    rfl
  | succ n ih =>
    intro s hs
    by_cases herr : (readBytesNL s).2.1 = true
    · have hline := readBytesNL_err_line s herr
      simp [relayLoopF, completeFramesF, herr, hline]
    · have herr' : (readBytesNL s).2.1 = false := by
        cases hb : (readBytesNL s).2.1
        · rfl
        · exact absurd hb herr
      have hlt := readBytesNL_ok_length s herr'
      have hrec := ih (readBytesNL s).2.2 (by omega)
      have happ := readBytesNL_append s
      simp only [relayLoopF, completeFramesF, herr', if_false, Bool.false_eq_true, ite_false]
      rw [List.append_assoc, hrec]
      exact happ

theorem completeFramesF_no_newline : ∀ (fuel : Nat) (s : List Nat), s.length ≤ fuel →
    10 ∉ (completeFramesF fuel s).2 := by
  intro fuel
  induction fuel with
  | zero =>
    intro s hs
    have : s = [] := List.length_eq_zero.mp (Nat.le_zero.mp hs)
    subst this
    simp [completeFramesF]
  | succ n ih =>
    intro s hs
    by_cases herr : (readBytesNL s).2.1 = true
    · simpa [completeFramesF, herr] using readBytesNL_err_no_newline s herr
    · have herr' : (readBytesNL s).2.1 = false := by
        cases hb : (readBytesNL s).2.1
        · rfl
        · exact absurd hb herr
      have hlt := readBytesNL_ok_length s herr'
      simpa [completeFramesF, herr'] using ih (readBytesNL s).2.2 (by omega)

theorem relayF_bytes : ∀ (fuel : Nat) (s : List Nat), s.length ≤ fuel →
    (relayLoopF fuel s).2.2 = ((completeFramesF fuel s).1.map List.length).sum := by
  intro fuel
  induction fuel with
  | zero => intro s _; rfl
  | succ n ih =>
    intro s hs
    by_cases herr : (readBytesNL s).2.1 = true
    · simp [relayLoopF, completeFramesF, herr]
    · have herr' : (readBytesNL s).2.1 = false := by
        cases hb : (readBytesNL s).2.1
        · rfl
        · exact absurd hb herr
      have hlt := readBytesNL_ok_length s herr'
      have hrec := ih (readBytesNL s).2.2 (by omega)
      simp [relayLoopF, completeFramesF, herr', hrec]
      omega

theorem relayF_cmds : ∀ (fuel : Nat) (s : List Nat), s.length ≤ fuel →
    (relayLoopF fuel s).2.1 = (completeFramesF fuel s).1.length := by
  intro fuel
  induction fuel with
  | zero => intro s _; rfl
  | succ n ih =>
    intro s hs
    by_cases herr : (readBytesNL s).2.1 = true
    · simp [relayLoopF, completeFramesF, herr]
    · have herr' : (readBytesNL s).2.1 = false := by
        cases hb : (readBytesNL s).2.1
        · rfl
        · exact absurd hb herr
      have hlt := readBytesNL_ok_length s herr'
      have hrec := ih (readBytesNL s).2.2 (by omega)
      simp [relayLoopF, completeFramesF, herr', hrec]

theorem lookup_setKey_self (k : String) (v : List Int) :
    ∀ l : List (String × List Int), (setKey k v l).lookup k = some v := by
  intro l
  induction l with
  | nil => simp [setKey, List.lookup]
  | cons p rest ih =>
    obtain ⟨k2, v2⟩ := p
    by_cases h : k2 = k
    · simp [setKey, h, List.lookup_cons]
    · have hne : (k == k2) = false := by
        simp only [beq_eq_false_iff_ne, ne_eq]
        exact fun hc => h hc.symm
      simp [setKey, h, List.lookup_cons, hne, ih]

theorem lookup_setKey_ne (k q : String) (hne : q ≠ k) (v : List Int) :
    ∀ l : List (String × List Int), (setKey k v l).lookup q = l.lookup q := by
  intro l
  have hqk : (q == k) = false := by simpa [beq_eq_false_iff_ne] using hne
  induction l with
  | nil => simp [setKey, List.lookup_cons, hqk]
  | cons p rest ih =>
    obtain ⟨k2, v2⟩ := p
    by_cases h : k2 = k
    · subst h
      simp [setKey, List.lookup_cons, hqk]
    · simp [setKey, h, List.lookup_cons, ih]

theorem Allow_fst (rl : RateLimiter) (now : Int) (ip : String) :
    (rl.Allow now ip).1 = (allowOne rl.limit rl.window (getTimes rl ip) now).1 := by
  by_cases h : rl.limit ≤ (((getTimes rl ip).filter (fun t => now - rl.window < t)).length : Int)
  · simp [RateLimiter.Allow, allowOne, h]
  · simp [RateLimiter.Allow, allowOne, h]

theorem Allow_getTimes (rl : RateLimiter) (now : Int) (ip : String) :
    getTimes (rl.Allow now ip).2 ip = (allowOne rl.limit rl.window (getTimes rl ip) now).2 := by
  by_cases h : rl.limit ≤ (((getTimes rl ip).filter (fun t => now - rl.window < t)).length : Int)
  · simp [RateLimiter.Allow, allowOne, h]
  · simp only [RateLimiter.Allow, allowOne, h, if_false, ite_false]
    simp [getTimes, lookup_setKey_self]

theorem Allow_limit (rl : RateLimiter) (now : Int) (ip : String) :
    (rl.Allow now ip).2.limit = rl.limit := by
  by_cases h : rl.limit ≤ (((getTimes rl ip).filter (fun t => now - rl.window < t)).length : Int)
  · simp [RateLimiter.Allow, h]
  · simp [RateLimiter.Allow, h]

theorem Allow_window (rl : RateLimiter) (now : Int) (ip : String) :
    (rl.Allow now ip).2.window = rl.window := by
  by_cases h : rl.limit ≤ (((getTimes rl ip).filter (fun t => now - rl.window < t)).length : Int)
  · simp [RateLimiter.Allow, h]
  · simp [RateLimiter.Allow, h]

theorem Allow_reject_eq (rl : RateLimiter) (now : Int) (ip : String)
    (h : (rl.Allow now ip).1 = false) : (rl.Allow now ip).2 = rl := by
  by_cases hc : rl.limit ≤ (((getTimes rl ip).filter (fun t => now - rl.window < t)).length : Int)
  · simp [RateLimiter.Allow, hc]
  · simp [RateLimiter.Allow, hc] at h

theorem runAllow_acc (ip : String) :
    ∀ (calls : List Int) (rl : RateLimiter),
      (runAllow rl ip calls).2 = (runOne rl.limit rl.window (getTimes rl ip) calls).2 := by
  intro calls
  induction calls with
  | nil => intro rl; simp [runAllow, runOne]
  | cons t rest ih =>
    intro rl
    simp only [runAllow, runOne]
    rw [ih (rl.Allow t ip).2, Allow_limit, Allow_window, Allow_getTimes, Allow_fst]


theorem sweepList_cons (window now : Int) (p : String × List Int)
    (rest : List (String × List Int)) :
    sweepList window now (p :: rest)
      = if (p.2.filter (fun t => now - window < t)).isEmpty
        then sweepList window now rest
        else (p.1, p.2.filter (fun t => now - window < t)) :: sweepList window now rest := by
  by_cases he : (p.2.filter (fun t => now - window < t)).isEmpty = true
  · rw [if_pos he]
    simp only [sweepList]
    exact List.filterMap_cons_none (by rw [if_pos he])
  · rw [if_neg he]
    simp only [sweepList]
    exact List.filterMap_cons_some (by rw [if_neg he])

theorem sweepList_lookup_not_mem (window now : Int) (k : String) :
    ∀ l : List (String × List Int), (∀ p ∈ l, p.1 ≠ k) →
      (sweepList window now l).lookup k = none := by
  intro l
  induction l with
  | nil => intro _; simp [sweepList]
  | cons p rest ih =>
    intro hall
    have hk2 : p.1 ≠ k := hall p (by simp)
    have hkk2 : (k == p.1) = false := by
      simp only [beq_eq_false_iff_ne, ne_eq]
      exact fun hc => hk2 hc.symm
    have hrest : ∀ q ∈ rest, q.1 ≠ k := fun q hq => hall q (by simp [hq])
    rw [sweepList_cons]
    by_cases he : (p.2.filter (fun t => now - window < t)).isEmpty = true
    · rw [if_pos he]
      exact ih hrest
    · rw [if_neg he, List.lookup_cons]
      simp only [hkk2]
      exact ih hrest

theorem sweepList_lookup (window now : Int) (k : String) :
    ∀ l : List (String × List Int), (l.map Prod.fst).Nodup →
      (sweepList window now l).lookup k
        = (l.lookup k).bind (fun ts =>
            if (ts.filter (fun t => now - window < t)).isEmpty then none
            else some (ts.filter (fun t => now - window < t))) := by
  intro l
  induction l with
  | nil => intro _; simp [sweepList]
  | cons p rest ih =>
    intro hnd
    simp only [List.map_cons, List.nodup_cons] at hnd
    obtain ⟨hk2notin, hndrest⟩ := hnd
    rw [sweepList_cons]
    by_cases hk : k = p.1
    · have hkk2 : (k == p.1) = true := by simpa using hk
      have hall : ∀ q ∈ rest, q.1 ≠ k := by
        intro q hq hc
        exact hk2notin (hk ▸ hc ▸ List.mem_map_of_mem Prod.fst hq)
      rw [show (p :: rest).lookup k = some p.2 by rw [List.lookup_cons]; simp only [hkk2]]
      rw [Option.some_bind]
      by_cases he : (p.2.filter (fun t => now - window < t)).isEmpty = true
      · rw [if_pos he, if_pos he]
        exact sweepList_lookup_not_mem window now k rest hall
      · rw [if_neg he, List.lookup_cons]
        simp only [hkk2]
        rw [if_neg he]
    · have hkk2 : (k == p.1) = false := by simpa [beq_eq_false_iff_ne] using hk
      rw [show (p :: rest).lookup k = rest.lookup k by rw [List.lookup_cons]; simp only [hkk2]]
      by_cases he : (p.2.filter (fun t => now - window < t)).isEmpty = true
      · rw [if_pos he]
        exact ih hndrest
      · rw [if_neg he, List.lookup_cons]
        simp only [hkk2]
        exact ih hndrest

theorem runOne_bound_aux (limit window : Int) :
    ∀ (calls : List Int), calls.Pairwise (fun a b => a ≤ b) →
    ∀ (ts acc : List Int) (tcur T : Int),
      (∀ c ∈ calls, tcur ≤ c) →
      (∀ c : Int, tcur - window ≤ c →
        acc.countP (fun a => decide (c < a)) = ts.countP (fun a => decide (c < a))) →
      ((acc.countP (fun a => decide (T - window < a ∧ a ≤ T)) : Int) ≤ limit) →
      (((acc ++ (runOne limit window ts calls).2).countP
          (fun a => decide (T - window < a ∧ a ≤ T)) : Int) ≤ limit) := by
  intro calls
  induction calls with
  | nil =>
    intro _ ts acc tcur T _ _ hbound
    simpa [runOne] using hbound
  | cons t rest ih =>
    intro hpw ts acc tcur T hge hinv hbound
    rw [List.pairwise_cons] at hpw
    obtain ⟨hle, hpw2⟩ := hpw
    have htcur : tcur ≤ t := hge t (by simp)
    by_cases hacc : limit ≤ ((ts.filter (fun x => decide (t - window < x))).length : Int)
    · have hrun : (runOne limit window ts (t :: rest)).2
          = (runOne limit window ts rest).2 := by
        simp [runOne, allowOne, hacc]
      rw [hrun]
      exact ih hpw2 ts acc t T hle (fun c hc => hinv c (by omega)) hbound
    · have hrun : (runOne limit window ts (t :: rest)).2
          = t :: (runOne limit window
              (ts.filter (fun x => decide (t - window < x)) ++ [t]) rest).2 := by
        simp [runOne, allowOne, hacc]
      rw [hrun]
      have hre : acc ++ t :: (runOne limit window
              (ts.filter (fun x => decide (t - window < x)) ++ [t]) rest).2
          = (acc ++ [t]) ++ (runOne limit window
              (ts.filter (fun x => decide (t - window < x)) ++ [t]) rest).2 := by
        simp
      rw [hre]
      have hvalidlen : ((ts.filter (fun x => decide (t - window < x))).length : Int) < limit := by
        omega
      have hcount_t : acc.countP (fun a => decide (t - window < a))
          = ts.countP (fun a => decide (t - window < a)) := hinv (t - window) (by omega)
      apply ih hpw2 (ts.filter (fun x => decide (t - window < x)) ++ [t]) (acc ++ [t]) t T hle
      · intro c hc
        have h1 : acc.countP (fun a => decide (c < a)) = ts.countP (fun a => decide (c < a)) :=
          hinv c (by omega)
        have h2 : (ts.filter (fun x => decide (t - window < x))).countP (fun a => decide (c < a))
            = ts.countP (fun a => decide (c < a)) := by
          rw [List.countP_filter]
          apply List.countP_congr
          intro a _
          constructor
          · intro hb
            simp only [Bool.and_eq_true, decide_eq_true_eq] at hb
            simp only [decide_eq_true_eq]
            exact hb.1
          · intro hb
            simp only [decide_eq_true_eq] at hb
            simp only [Bool.and_eq_true, decide_eq_true_eq]
            exact ⟨hb, by omega⟩
        simp only [List.countP_append, h1, h2]
      · by_cases hT : T - window < t ∧ t ≤ T
        · have hmono : acc.countP (fun a => decide (T - window < a ∧ a ≤ T))
              ≤ acc.countP (fun a => decide (t - window < a)) := by
            apply List.countP_mono_left
            intro a _ ha
            simp only [decide_eq_true_eq] at ha ⊢
            omega
          have hfl : (ts.filter (fun x => decide (t - window < x))).length
              = ts.countP (fun x => decide (t - window < x)) :=
            (List.countP_eq_length_filter _ _).symm
          have hsingle : ([t].countP (fun a => decide (T - window < a ∧ a ≤ T))) = 1 := by
            simp [List.countP_cons, hT]
          simp only [List.countP_append, hsingle]
          omega
        · have hsingle : ([t].countP (fun a => decide (T - window < a ∧ a ≤ T))) = 0 := by
            simp [List.countP_cons, hT]
          simp only [List.countP_append, hsingle]
          simpa using hbound

theorem runOne_accepted_bound (limit window : Int) (hL : 0 ≤ limit)
    (calls : List Int) (hmono : calls.Pairwise (fun a b => a ≤ b)) (T : Int) :
    (((runOne limit window [] calls).2.countP
        (fun a => decide (T - window < a ∧ a ≤ T)) : Int)) ≤ limit := by
  cases calls with
  | nil => simpa [runOne] using hL
  | cons t rest =>
    have hge : ∀ c ∈ t :: rest, t ≤ c := by
      intro c hc
      rcases List.mem_cons.mp hc with h | h
      · omega
      · exact (List.pairwise_cons.mp hmono).1 c h
    have := runOne_bound_aux limit window (t :: rest) hmono [] [] t T hge
      (fun c _ => rfl) (by simpa using hL)
    simpa using this

/-- Claim C1 counterexample: on the stream `[97]` (one byte, no newline),
`ReadBytes` reaches end-of-stream holding the data `[97]` of a started
frame, yet the relay loop breaks on the error without writing it, so the
forwarded output is empty — the loop does not forward the unterminated
trailing frame, contradicting the claim that it is forwarded as-is. -/
theorem relay_unterminated_frame_dropped :
    (readBytesNL [97]).1 = [97] ∧ (readBytesNL [97]).2.1 = true
    ∧ (relayLoop [97]).1 = [] ∧ (relayLoop [97]).1 ≠ [97] := by
  decide

/-- Claim C1 (amended): when end-of-stream is reached while an
unterminated trailing frame has been read, that frame is discarded, not
forwarded: each relay direction forwards exactly the complete
newline-terminated frames, so the forwarded output followed by the
(newline-free) unterminated trailing bytes reconstitutes the input. -/
theorem relay_forwards_complete_frames_only (s : List Nat) :
    (relayLoop s).1 ++ (completeFrames s).2 = s
    ∧ 10 ∉ (completeFrames s).2 :=
  ⟨relayF_frames_append s.length s le_rfl,
   completeFramesF_no_newline s.length s le_rfl⟩

/-- Claim C2: for every sequence of `Allow` calls for a single key made at
nondecreasing instants against a fresh key, with window W and limit L ≥ 0,
at most L calls return true within any trailing half-open interval
(T − W, T]; and a call that returns false leaves the limiter state
entirely unchanged, so a rejected attempt consumes no capacity. -/
theorem allow_sliding_window_bound (rl : RateLimiter) (ip : String) (calls : List Int)
    (T : Int) (hL : 0 ≤ rl.limit) (hfresh : getTimes rl ip = [])
    (hmono : calls.Pairwise (fun a b => a ≤ b))
    (rl2 : RateLimiter) (now2 : Int) (ip2 : String)
    (hrej : (rl2.Allow now2 ip2).1 = false) :
    (((runAllow rl ip calls).2.countP
        (fun a => decide (T - rl.window < a ∧ a ≤ T)) : Int) ≤ rl.limit)
    ∧ (rl2.Allow now2 ip2).2 = rl2 := by
  refine ⟨?_, Allow_reject_eq rl2 now2 ip2 hrej⟩
  rw [runAllow_acc ip calls rl, hfresh]
  exact runOne_accepted_bound rl.limit rl.window hL calls hmono T

theorem allow_sliding_window_bound_witness :
    ((0 : Int) ≤ (RateLimiter.mk [] 1 2).limit)
    ∧ getTimes (RateLimiter.mk [] 1 2) "a" = []
    ∧ ([0, 1, 3] : List Int).Pairwise (fun a b => a ≤ b)
    ∧ ((RateLimiter.mk [] 0 1).Allow 0 "b").1 = false
    ∧ (((runAllow (RateLimiter.mk [] 1 2) "a" [0, 1, 3]).2.countP
          (fun a => decide (1 - (RateLimiter.mk [] 1 2).window < a ∧ a ≤ 1)) : Int)
        ≤ (RateLimiter.mk [] 1 2).limit)
    ∧ ((RateLimiter.mk [] 0 1).Allow 0 "b").2 = RateLimiter.mk [] 0 1 := by
  refine ⟨by decide, by decide, by decide, by decide, ?_, ?_⟩
  · exact (allow_sliding_window_bound (RateLimiter.mk [] 1 2) "a" [0, 1, 3] 1
      (by decide) (by decide) (by decide) (RateLimiter.mk [] 0 1) 0 "b" (by decide)).1
  · exact (allow_sliding_window_bound (RateLimiter.mk [] 1 2) "a" [0, 1, 3] 1
      (by decide) (by decide) (by decide) (RateLimiter.mk [] 0 1) 0 "b" (by decide)).2

/-- Claim C3 counterexample: with the shutdown signal already set, a
connection the accept loop still obtains (a successful accept) is not
closed immediately: it passes the admission checks and is dispatched to a
handler, which visibly runs (the total-connections counter becomes 1).
The loop body consults the shutdown signal only on the accept-error
path. -/
theorem accept_dispatches_after_shutdown :
    (acceptLoopBody true false 100 (RateLimiter.mk [] 100 1) 0 "a" true [] []
        (Stats.mk 0 0 0 0 0)).action = LoopAction.dispatched
    ∧ (acceptLoopBody true false 100 (RateLimiter.mk [] 100 1) 0 "a" true [] []
        (Stats.mk 0 0 0 0 0)).stats.totalConnections = 1 := by
  decide

/-- Claim C3 (amended): the shutdown signal is consulted only when the
accept call returns an error — there it turns the error into a clean loop
exit.  A connection successfully obtained by the accept loop is processed
identically whether or not shutdown has been signaled (it still goes
through admission checks and may be dispatched); no post-accept shutdown
check or immediate close exists. -/
theorem shutdown_checked_only_on_accept_error (sd : Bool) (maxConns : Int)
    (rl : RateLimiter) (now : Int) (ip : String) (dialOk : Bool)
    (client backend : List Nat) (s : Stats) :
    acceptLoopBody sd false maxConns rl now ip dialOk client backend s
      = acceptLoopBody false false maxConns rl now ip dialOk client backend s
    ∧ acceptLoopBody sd true maxConns rl now ip dialOk client backend s
      = (if sd then LoopResult.mk LoopAction.exitLoop rl s
         else LoopResult.mk LoopAction.continueAfterError rl s) := by
  constructor
  · simp [acceptLoopBody]
  · simp [acceptLoopBody]

/-- Claim C4: when the active-connection count is at or above the
configured maximum, the accepted connection is rejected for capacity: no
handler is dispatched, the statistics are left unchanged, and the rate
limiter is not consulted (its state is unchanged) — the capacity check
runs before the rate-limit check. -/
theorem capacity_check_rejects_first (sd : Bool) (maxConns : Int) (rl : RateLimiter)
    (now : Int) (ip : String) (dialOk : Bool) (client backend : List Nat) (s : Stats)
    (h : maxConns ≤ s.activeConnections) :
    acceptLoopBody sd false maxConns rl now ip dialOk client backend s
      = LoopResult.mk LoopAction.rejectedCapacity rl s := by
  simp [acceptLoopBody, h]

theorem capacity_check_rejects_first_witness :
    ((1 : Int) ≤ (Stats.mk 5 1 0 0 0).activeConnections)
    ∧ acceptLoopBody false false 1 (RateLimiter.mk [] 100 1) 0 "a" true [] []
        (Stats.mk 5 1 0 0 0)
      = LoopResult.mk LoopAction.rejectedCapacity (RateLimiter.mk [] 100 1)
          (Stats.mk 5 1 0 0 0) :=
  ⟨by decide,
   capacity_check_rejects_first false 1 (RateLimiter.mk [] 100 1) 0 "a" true [] []
     (Stats.mk 5 1 0 0 0) (by decide)⟩

/-- Claim C5: after a connection relays its client stream (N complete
frames totaling B bytes forwarded) and its backend stream (complete reply
frames totaling M bytes forwarded), the total-bytes counter has increased
by exactly B + M and the total-commands counter by exactly N; the
command-counter increase is independent of the backend stream, so
backend-to-client frames never increment it. -/
theorem stats_byte_command_accounting (client backend : List Nat) (s : Stats) :
    (handleConnection true client backend s).totalBytes
      = s.totalBytes + (((completeFrames client).1.map List.length).sum
          + ((completeFrames backend).1.map List.length).sum)
    ∧ (handleConnection true client backend s).totalCommands
      = s.totalCommands + (completeFrames client).1.length := by
  have hb1 := relayF_bytes client.length client le_rfl
  have hb2 := relayF_bytes backend.length backend le_rfl
  have hc1 := relayF_cmds client.length client le_rfl
  constructor
  · simp only [handleConnection, handlerEntry, relayLoop, completeFrames, if_true, ite_true]
    rw [hb1, hb2]
    omega
  · simp only [handleConnection, handlerEntry, relayLoop, completeFrames, if_true, ite_true]
    rw [hc1]

/-- Claim C6: a dispatched handler increments the total-connections
counter by exactly one, and its active-connections increment on entry is
matched by exactly one decrement on every exit path (backend-dial failure
or completed relay), so when the counter starts non-negative it is
non-negative at entry and after exit, and after exit it equals its prior
value. -/
theorem handler_counters_balanced (dialOk : Bool) (client backend : List Nat) (s : Stats)
    (h : 0 ≤ s.activeConnections) :
    (handleConnection dialOk client backend s).totalConnections = s.totalConnections + 1
    ∧ (handleConnection dialOk client backend s).activeConnections = s.activeConnections
    ∧ 0 ≤ (handlerEntry s).activeConnections
    ∧ 0 ≤ (handleConnection dialOk client backend s).activeConnections := by
  have h1 : (handleConnection dialOk client backend s).totalConnections
      = s.totalConnections + 1 := by
    cases dialOk <;> rfl
  have h2 : (handleConnection dialOk client backend s).activeConnections
      = s.activeConnections := by
    cases dialOk <;> simp [handleConnection, handlerEntry]
  have h3 : 0 ≤ (handlerEntry s).activeConnections := by
    show 0 ≤ s.activeConnections + 1
    omega
  exact ⟨h1, h2, h3, by rw [h2]; exact h⟩

theorem handler_counters_balanced_witness :
    ((0 : Int) ≤ (Stats.mk 0 0 0 0 0).activeConnections)
    ∧ ((handleConnection true [97, 10] [111, 107, 10] (Stats.mk 0 0 0 0 0)).totalConnections
         = (Stats.mk 0 0 0 0 0).totalConnections + 1
       ∧ (handleConnection true [97, 10] [111, 107, 10] (Stats.mk 0 0 0 0 0)).activeConnections
         = (Stats.mk 0 0 0 0 0).activeConnections
       ∧ 0 ≤ (handlerEntry (Stats.mk 0 0 0 0 0)).activeConnections
       ∧ 0 ≤ (handleConnection true [97, 10] [111, 107, 10]
           (Stats.mk 0 0 0 0 0)).activeConnections) :=
  ⟨by decide,
   handler_counters_balanced true [97, 10] [111, 107, 10] (Stats.mk 0 0 0 0 0) (by decide)⟩

/-- Claim C7: a sweep cycle removes a key (its lookup afterwards is
`none`) if and only if no stored timestamp for that key lies within the
window of the sweep instant; a key with at least one in-window timestamp
persists, with its sequence filtered to exactly the in-window
timestamps. -/
theorem cleanup_removes_key_iff (rl : RateLimiter) (now : Int) (k : String)
    (hnd : (rl.requests.map Prod.fst).Nodup) :
    (((rl.cleanup now).requests.lookup k = none) ↔
       (∀ ts, rl.requests.lookup k = some ts →
          ts.filter (fun t => now - rl.window < t) = []))
    ∧ (∀ ts, rl.requests.lookup k = some ts →
        ts.filter (fun t => now - rl.window < t) ≠ [] →
        (rl.cleanup now).requests.lookup k
          = some (ts.filter (fun t => now - rl.window < t))) := by
  have h := sweepList_lookup rl.window now k rl.requests hnd
  have hcl : (rl.cleanup now).requests = sweepList rl.window now rl.requests := rfl
  rw [hcl, h]
  cases hl : rl.requests.lookup k with
  | none => simp
  | some ts =>
    rw [Option.some_bind]
    by_cases he : (ts.filter (fun t => now - rl.window < t)).isEmpty = true
    · have hfe : ts.filter (fun t => now - rl.window < t) = [] := by simpa using he
      rw [if_pos he]
      constructor
      · constructor
        · intro _ ts2 hts2
          rw [Option.some.injEq] at hts2
          subst hts2
          exact hfe
        · intro _
          rfl
      · intro ts2 hts2 hne
        rw [Option.some.injEq] at hts2
        subst hts2
        exact absurd hfe hne
    · have hfe : ts.filter (fun t => now - rl.window < t) ≠ [] := by simpa using he
      rw [if_neg he]
      constructor
      · constructor
        · intro hcon
          exact (Option.some_ne_none _ hcon).elim
        · intro hall
          exact absurd (hall ts rfl) hfe
      · intro ts2 hts2 _
        rw [Option.some.injEq] at hts2
        subst hts2
        rfl

theorem cleanup_removes_key_iff_witness :
    (((RateLimiter.mk [("a", [0]), ("b", [5])] 1 3).requests.map Prod.fst).Nodup)
    ∧ ((((RateLimiter.mk [("a", [0]), ("b", [5])] 1 3).cleanup 6).requests.lookup "a" = none ↔
          (∀ ts, (RateLimiter.mk [("a", [0]), ("b", [5])] 1 3).requests.lookup "a" = some ts →
            ts.filter (fun t =>
              6 - (RateLimiter.mk [("a", [0]), ("b", [5])] 1 3).window < t) = []))
       ∧ (∀ ts, (RateLimiter.mk [("a", [0]), ("b", [5])] 1 3).requests.lookup "a" = some ts →
           ts.filter (fun t =>
             6 - (RateLimiter.mk [("a", [0]), ("b", [5])] 1 3).window < t) ≠ [] →
           ((RateLimiter.mk [("a", [0]), ("b", [5])] 1 3).cleanup 6).requests.lookup "a"
             = some (ts.filter (fun t =>
                 6 - (RateLimiter.mk [("a", [0]), ("b", [5])] 1 3).window < t)))) :=
  ⟨by decide,
   cleanup_removes_key_iff (RateLimiter.mk [("a", [0]), ("b", [5])] 1 3) 6 "a" (by decide)⟩

/-- Claim C8 counterexample: with stored sequence `[0, 5]`, limit 1 and
window 3, the `Allow` call at instant 6 rejects, and afterwards the stored
sequence still contains the timestamp 0, which is not within the window
(0 ≤ 6 − 3): a rejecting call does not prune the stored sequence down to
the in-window entries, contradicting the claim. -/
theorem allow_reject_retains_stale_counterexample :
    (((RateLimiter.mk [("a", [0, 5])] 1 3).Allow 6 "a").1 = false)
    ∧ (0 : Int) ∈ getTimes (((RateLimiter.mk [("a", [0, 5])] 1 3).Allow 6 "a").2) "a"
    ∧ ¬ ((6 : Int) - (RateLimiter.mk [("a", [0, 5])] 1 3).window < 0) := by
  decide

/-- Claim C8 (amended): on an `Allow` call that rejects, the stored
timestamp sequence for the key is left entirely unchanged — the new
attempt is not recorded, but the entries filtered out during the call are
not removed from storage either (stale entries are pruned only by a later
accepting call or by the background sweep). -/
theorem allow_reject_leaves_sequence_unchanged (rl : RateLimiter) (now : Int) (ip : String)
    (h : (rl.Allow now ip).1 = false) :
    (rl.Allow now ip).2 = rl
    ∧ getTimes ((rl.Allow now ip).2) ip = getTimes rl ip := by
  have heq := Allow_reject_eq rl now ip h
  exact ⟨heq, by rw [heq]⟩

theorem allow_reject_leaves_sequence_unchanged_witness :
    (((RateLimiter.mk [("a", [0, 5])] 1 3).Allow 6 "a").1 = false)
    ∧ ((((RateLimiter.mk [("a", [0, 5])] 1 3).Allow 6 "a").2
          = RateLimiter.mk [("a", [0, 5])] 1 3)
       ∧ getTimes ((((RateLimiter.mk [("a", [0, 5])] 1 3).Allow 6 "a")).2) "a"
           = getTimes (RateLimiter.mk [("a", [0, 5])] 1 3) "a") :=
  ⟨by decide,
   allow_reject_leaves_sequence_unchanged (RateLimiter.mk [("a", [0, 5])] 1 3) 6 "a"
     (by decide)⟩

/-- Claim C9: an `Allow` call for key `ip` modifies at most the map entry
for `ip`: the stored sequence of every other key is unchanged. -/
theorem allow_modifies_only_its_key (rl : RateLimiter) (now : Int) (ip k : String)
    (h : k ≠ ip) :
    (rl.Allow now ip).2.requests.lookup k = rl.requests.lookup k := by
  by_cases hc : rl.limit
      ≤ (((getTimes rl ip).filter (fun t => now - rl.window < t)).length : Int)
  · simp [RateLimiter.Allow, hc]
  · simp only [RateLimiter.Allow, hc, if_false, ite_false]
    exact lookup_setKey_ne ip k h _ rl.requests

theorem allow_modifies_only_its_key_witness :
    ("b" ≠ "a")
    ∧ ((RateLimiter.mk [("b", [7])] 5 1).Allow 9 "a").2.requests.lookup "b"
        = (RateLimiter.mk [("b", [7])] 5 1).requests.lookup "b" :=
  ⟨by decide,
   allow_modifies_only_its_key (RateLimiter.mk [("b", [7])] 5 1) 9 "a" "b" (by decide)⟩

/-- Claim C10: when the configured limit is zero or negative, `Allow`
rejects every call and leaves the limiter unchanged (records nothing);
and the first call for a never-seen key returns true if and only if the
limit is at least 1. -/
theorem allow_limit_nonpositive (rl : RateLimiter) (now : Int) (ip : String)
    (hlim : rl.limit ≤ 0)
    (rl2 : RateLimiter) (now2 : Int) (ip2 : String)
    (hfresh : rl2.requests.lookup ip2 = none) :
    rl.Allow now ip = (false, rl)
    ∧ ((rl2.Allow now2 ip2).1 = true ↔ 1 ≤ rl2.limit) := by
  constructor
  · have hc : rl.limit
        ≤ (((getTimes rl ip).filter (fun t => now - rl.window < t)).length : Int) := by
      have hnn : (0 : Int)
          ≤ (((getTimes rl ip).filter (fun t => now - rl.window < t)).length : Int) :=
        Int.natCast_nonneg _
      omega
    simp [RateLimiter.Allow, hc]
  · have hg : getTimes rl2 ip2 = [] := by simp [getTimes, hfresh]
    by_cases h2 : rl2.limit ≤ (0 : Int)
    · simp [RateLimiter.Allow, hg, h2]
      omega
    · simp [RateLimiter.Allow, hg, h2]
      omega

theorem allow_limit_nonpositive_witness :
    ((RateLimiter.mk [] 0 1).limit ≤ 0)
    ∧ ((RateLimiter.mk [("x", [3])] 2 1).requests.lookup "z" = none)
    ∧ ((RateLimiter.mk [] 0 1).Allow 4 "a" = (false, RateLimiter.mk [] 0 1)
       ∧ (((RateLimiter.mk [("x", [3])] 2 1).Allow 7 "z").1 = true
            ↔ 1 ≤ (RateLimiter.mk [("x", [3])] 2 1).limit)) :=
  ⟨by decide, by decide,
   allow_limit_nonpositive (RateLimiter.mk [] 0 1) 4 "a" (by decide)
     (RateLimiter.mk [("x", [3])] 2 1) 7 "z" (by decide)⟩
